import Mathlib

/-!
Shallow embedding of the double-buffered frame renderer of
`src/inquire/src/ui/untitled_render_box_abstraction.rs` together with the
frame lifecycle entry points of `src/inquire/src/ui/backend.rs`.

Machine integers: the source stores columns and rows as `u16` and uses
`saturating_add` and plain (release-mode wrapping) subtraction; we model
those fields as `Nat` together with explicit saturation at `65535` and an
explicit wrapping subtraction modulo `2 ^ 16`.

Hashing: the source feeds classified pieces and the active style into an
`FxHasher` and stores `hasher.finish()`.  `FxHasher::finish` is a pure,
deterministic function of the exact sequence of values fed into the hasher,
so we model the hasher state as that feed transcript itself (a
`List HashFeed`): two transcripts that are equal in the model are mapped by
the real `FxHasher` to equal `u64` values.
-/

/-- Modelled from the spec: the style descriptor carried by a styled token
(`StyleSheet` lives outside `src/`).  It is an opaque immutable value that is
compared and hashed by value and has an emptiness test which holds for the
default style; we model it as a `Nat` with `0` as the default/empty style. -/
abbrev StyleSheet := Nat

/-- Modelled from the spec: `StyleSheet::is_empty`, true exactly for the
default (attribute-free) style. -/
def styleIsEmpty (s : StyleSheet) : Bool := s == 0

/-- Modelled from the spec: one output of the Display Classifier
(`crate::ansi::AnsiAwareChar`, outside `src/`): either a printable character
or an opaque ANSI escape sequence. -/
inductive AnsiAwareChar where
  | chr (c : Char)
  | esc (seq : List Char)
deriving DecidableEq, Repr

/-- Modelled from the spec: `UnicodeWidthChar::width(c).unwrap_or(0)` of the
external `unicode-width` crate.  The spec guarantees every classified
printable character has display width 0, 1 or 2 columns; the concrete table
below is a model of that external table (control characters get width 0,
characters from U+1100 on get width 2, the rest width 1). -/
def charWidth (c : Char) : Nat :=
  if c.val < 32 then 0 else if c.val < 0x1100 then 1 else 2

/-- `u16` saturating addition (`saturating_add` in the source). -/
def sat16 (a b : Nat) : Nat := min (a + b) 65535

/-- `u16` release-mode (wrapping) subtraction, valid for `b ≤ 65535`. -/
def wsub16 (a b : Nat) : Nat := (a + 65536 - b) % 65536

/-- One value fed into the row hasher: the source hashes the classified
piece and then the active style for every piece, plus a residual style after
a line is finished. -/
inductive HashFeed where
  | piece (p : AnsiAwareChar)
  | styleOf (s : StyleSheet)
deriving DecidableEq, Repr

/-- `Position` (`src/inquire/src/ui/backend.rs`): `col` and `row` are `u16`. -/
structure Position where
  col : Nat
  row : Nat
deriving DecidableEq, Repr

/-- `TerminalSize` (terminal module, fields modelled as the spec's
`(width, height)` pair of `u16`). -/
structure TerminalSize where
  width : Nat
  height : Nat
deriving DecidableEq, Repr

/-- `Dimension` (ui module): a `(width, height)` pair. -/
structure Dimension where
  width : Nat
  height : Nat
deriving DecidableEq, Repr

/-- `Styled<String>`: a text buffer under one style.  The `String` content is
modelled as its character list (characters are pushed one at a time in the
source). -/
structure Styled where
  content : List Char
  style : StyleSheet
deriving DecidableEq, Repr

instance : Inhabited Styled := ⟨⟨[], 0⟩⟩

/-- `Styled::default()`: empty content, default style. -/
def Styled.default : Styled := ⟨[], 0⟩

/-- A written fragment as seen by `FrameState::write`: the classifier output
of its text, plus its style. -/
structure StyledFragment where
  content : List AnsiAwareChar
  style : StyleSheet
deriving DecidableEq, Repr

/-- `FrameRow`: a finished line plus the finished hash of its feed
transcript. -/
structure FrameRow where
  content : List Styled
  hash : List HashFeed
deriving DecidableEq, Repr

/-- `FrameRow::get_content`. -/
def FrameRow.get_content (r : FrameRow) : List Styled := r.content

/-- `FrameState` of `untitled_render_box_abstraction.rs`. -/
structure FrameState where
  terminal_size : TerminalSize
  frame_size : Dimension
  cursor_position : Position
  expected_cursor_position : Option Position
  finished_rows : List FrameRow
  current_styled : Styled
  current_line : List Styled
  current_line_hasher : List HashFeed
deriving DecidableEq, Repr

namespace FrameState

/-- `FrameState::new`. -/
def new (terminal_size : TerminalSize) : FrameState where
  terminal_size := terminal_size
  frame_size := ⟨0, 0⟩
  cursor_position := ⟨0, 0⟩
  expected_cursor_position := none
  finished_rows := []
  current_styled := Styled.default
  current_line := []
  current_line_hasher := []

/-- `FrameState::finish_line`.  The source takes `current_styled` (restoring
only its style), pushes it if its content or style is nonempty, then takes
the hasher and the line; an empty taken line returns early (hasher and line
already reset, cursor untouched), otherwise the row is pushed, the cursor
moves to column 0 of the next row, and a nonempty residual style is fed into
the fresh hasher. -/
def finish_line (s : FrameState) : FrameState :=
  let cs := s.current_styled
  let line :=
    if cs.content.isEmpty && styleIsEmpty cs.style then s.current_line
    else s.current_line ++ [cs]
  let hasher := s.current_line_hasher
  let base : FrameState :=
    { s with
      current_styled := ⟨[], cs.style⟩
      current_line := []
      current_line_hasher := [] }
  if line.isEmpty then base
  else
    let committed :=
      { base with
        finished_rows := s.finished_rows ++ [⟨line, hasher⟩]
        cursor_position := ⟨0, sat16 s.cursor_position.row 1⟩ }
    if styleIsEmpty cs.style then committed
    else { committed with current_line_hasher := [HashFeed.styleOf cs.style] }

/-- One loop iteration of `FrameState::write`: hash the piece and the active
style, then dispatch on escape / newline / printable, wrapping first when the
character would not fit the remaining width. -/
def writeUnit (s : FrameState) (style : StyleSheet) (piece : AnsiAwareChar) :
    FrameState :=
  let s :=
    { s with
      current_line_hasher :=
        s.current_line_hasher ++ [HashFeed.piece piece, HashFeed.styleOf style] }
  match piece with
  | .esc _ => s
  | .chr c =>
    if c = '\n' then s.finish_line
    else
      let remaining_width_space := wsub16 s.terminal_size.width s.cursor_position.col
      let character_length := charWidth c
      let s := if character_length > remaining_width_space then s.finish_line else s
      { s with
        current_styled :=
          { s.current_styled with content := s.current_styled.content ++ [c] }
        cursor_position :=
          { s.cursor_position with
            col := sat16 s.cursor_position.col character_length } }

/-- `FrameState::write`: set the active style, process every classified
piece, then move a nonempty `current_styled` into `current_line` (taking it,
which resets it to `Styled::default()`). -/
def write (s : FrameState) (value : StyledFragment) : FrameState :=
  let s := { s with current_styled := { s.current_styled with style := value.style } }
  let s := value.content.foldl (fun a p => a.writeUnit value.style p) s
  if s.current_styled.content.isEmpty then s
  else
    { s with
      current_line := s.current_line ++ [s.current_styled]
      current_styled := Styled.default }

/-- `FrameState::mark_cursor_position`: `offset as u16` truncates the signed
offset modulo `2 ^ 16`, the column is bumped with `saturating_add`, and the
result wraps to the next row at most once. -/
def mark_cursor_position (s : FrameState) (offset : Int) : FrameState :=
  let c := sat16 s.cursor_position.col ((offset % 65536).toNat)
  let expected :=
    if c ≥ s.terminal_size.width then
      Position.mk (c - s.terminal_size.width) ((s.cursor_position.row + 1) % 65536)
    else ⟨c, s.cursor_position.row⟩
  { s with expected_cursor_position := some expected }

/-- `FrameState::finish`. -/
def finish (s : FrameState) : FrameState := s.finish_line

/-- `FrameState::fit_to_terminal`.  The replay branch re-classifies the
buffered strings; buffered rows hold only printable characters (escape
sequences are never buffered), so the classifier yields exactly their
characters (Modelled from the spec: the Display Classifier on printable
text). -/
def fit_to_terminal (s : FrameState) (new_size : TerminalSize) : FrameState :=
  if s.frame_size.width ≤ new_size.width ∧ s.frame_size.height ≤ new_size.height then
    { s with terminal_size := new_size }
  else
    let replayStyled := fun (a : FrameState) (st : Styled) =>
      a.write ⟨st.content.map AnsiAwareChar.chr, st.style⟩
    let ns := FrameState.new new_size
    let ns := s.finished_rows.foldl (fun a row => row.content.foldl replayStyled a) ns
    s.current_line.foldl replayStyled ns

end FrameState

/-- A terminal primitive invoked through the `Terminal` capability.  Output
operations only; `get_size` results are passed as inputs to the functions
that query them. -/
inductive TermOp where
  | cursorUp (n : Nat)
  | cursorDown (n : Nat)
  | cursorMoveToColumn (n : Nat)
  | clearCurrentLine
  | clearUntilNewLine
  | writeText (s : List Char)
  | writeStyled (t : Styled)
  | flush
  | cursorShow
  | cursorHide
  | getSize
deriving DecidableEq, Repr

/-- The operations the row loop of
`UntitledRenderBoxAbstraction::finish_current_frame` emits for row index
`i`: move to column 0, then diff by hash, then the unconditional
line-advance `write("\n")`. -/
def diffRowOps (lastRows currentRows : List FrameRow) (i : Nat) : List TermOp :=
  TermOp.cursorMoveToColumn 0 ::
    (match lastRows[i]?, currentRows[i]? with
      | some lastRow, some currentRow =>
        if lastRow.hash ≠ currentRow.hash then
          currentRow.content.map TermOp.writeStyled ++ [TermOp.clearUntilNewLine]
        else []
      | some _, none => [TermOp.clearCurrentLine]
      | none, some currentRow => currentRow.content.map TermOp.writeStyled
      | none, none => []) ++ [TermOp.writeText ['\n']]

/-- `UntitledRenderBoxAbstraction::finish_current_frame`, with the size the
terminal reports passed in as `size`.  Returns the state after the buffer
swap (`last_rendered_frame`, fresh `current_frame`) and the emitted terminal
operations. -/
def finishCurrentFrame (last current : FrameState) (size : TerminalSize) :
    (FrameState × FrameState) × List TermOp :=
  let last := last.fit_to_terminal size
  let current := current.finish
  let rows_to_iterate := max last.finished_rows.length current.finished_rows.length
  let ops :=
    TermOp.cursorUp last.cursor_position.row ::
      ((List.range rows_to_iterate).map
          (diffRowOps last.finished_rows current.finished_rows)).flatten ++
      [TermOp.flush]
  ((current, FrameState.new size), ops)

/-- `UntitledRenderBoxAbstraction::hide_cursor`: the body's
`self.terminal.cursor_hide()` call is commented out in the source, so the
method performs no terminal operation and returns `Ok(())`. -/
def hideCursorOps : List TermOp := []

/-- `Backend::frame_setup` (`src/inquire/src/ui/backend.rs`): it calls
`hide_cursor` on the render box and returns its result. -/
def frameSetupOps : List TermOp := hideCursorOps

/-- The result each fallible terminal primitive would return if invoked, for
one teardown run: `ok` or an I/O error (error kinds modelled as `Nat`).
This oracle drives the teardown model. -/
structure TermBehavior where
  getSizeR : Except Nat TerminalSize
  moveColR : Except Nat Unit
  cursorUpR : Except Nat Unit
  cursorDownR : Except Nat Unit
  cursorShowR : Except Nat Unit
  flushR : Except Nat Unit

/-- `UntitledRenderBoxAbstraction::move_cursor_to_end_position`: query the
size, re-fit the current frame, move to column 0, then move down or up to
the frame's end row; each `?` aborts on the first error.  Returns the
attempted operations and the `io::Result`. -/
def moveCursorToEndPosition (b : TermBehavior) (current : FrameState) :
    List TermOp × Except Nat Unit :=
  match b.getSizeR with
  | .error e => ([TermOp.getSize], .error e)
  | .ok terminal_size =>
    let current := current.fit_to_terminal terminal_size
    let cursor_position := current.cursor_position
    let endRow := current.frame_size.height
    match b.moveColR with
    | .error e => ([TermOp.getSize, TermOp.cursorMoveToColumn 0], .error e)
    | .ok _ =>
      if endRow > cursor_position.row then
        ([TermOp.getSize, TermOp.cursorMoveToColumn 0,
            TermOp.cursorDown (endRow - cursor_position.row)],
          b.cursorDownR)
      else if endRow < cursor_position.row then
        ([TermOp.getSize, TermOp.cursorMoveToColumn 0,
            TermOp.cursorUp (cursor_position.row - endRow)],
          b.cursorUpR)
      else ([TermOp.getSize, TermOp.cursorMoveToColumn 0], .ok ())

/-- `UntitledRenderBoxAbstraction::show_cursor`. -/
def showCursorRun (b : TermBehavior) : List TermOp × Except Nat Unit :=
  ([TermOp.cursorShow], b.cursorShowR)

/-- `UntitledRenderBoxAbstraction::flush`. -/
def flushRun (b : TermBehavior) : List TermOp × Except Nat Unit :=
  ([TermOp.flush], b.flushR)

/-- `impl Drop for UntitledRenderBoxAbstraction`: run the three teardown
steps in order, binding each `io::Result` to `_unused` (so an error in one
step neither stops the later steps nor escapes `drop`, which returns unit
and therefore only the attempted operations are observable). -/
def dropOps (b : TermBehavior) (current : FrameState) : List TermOp :=
  (moveCursorToEndPosition b current).1 ++ (showCursorRun b).1 ++ (flushRun b).1

/-- Invariant used for the column bound: the cursor column stays within the
terminal width, and an empty pending line forces column 0. -/
def ColInv (s : FrameState) : Prop :=
  s.cursor_position.col ≤ s.terminal_size.width ∧
    (s.current_line = [] → s.current_styled.content = [] → s.cursor_position.col = 0)

/-- State reached by feeding `n` copies of a printable character through the
write loop of a fresh frame (before the end-of-write push). -/
def repState (W H n : Nat) (c : Char) : FrameState :=
  (List.replicate n (AnsiAwareChar.chr c)).foldl
    (fun a p => a.writeUnit 0 p) (FrameState.new ⟨W, H⟩)

theorem charWidth_le_two (c : Char) : charWidth c ≤ 2 := by
  unfold charWidth
  split <;> [omega; skip]
  split <;> omega

theorem wsub16_of_le (a b : Nat) (hba : b ≤ a) (ha : a ≤ 65535) :
    wsub16 a b = a - b := by
  unfold wsub16
  have h1 : a + 65536 - b = (a - b) + 65536 := by omega
  rw [h1, Nat.add_mod_right, Nat.mod_eq_of_lt (by omega)]

/-- C2: counterexample evaluation at the failing input.  With terminal width
2, the previous frame writes "abc" and the current frame writes "abd".  The
wrap-triggering third character is fed into the hasher before `finish_line`
runs, so it lands in row 0's hash while its text lands in row 1; row 1's
hasher therefore finishes with an empty feed transcript in both frames.  The
two rows at index 1 hold different content ("c" versus "d") yet carry equal
hashes, so the commit loop takes the skip branch for row 1 and the changed
row is never redrawn — the hash is not a function of the row's (text, style)
content. -/
theorem wrap_hash_not_function_of_row_content :
    (let fA := ((FrameState.new ⟨2, 24⟩).write
        ⟨[.chr 'a', .chr 'b', .chr 'c'], 0⟩).finish
     let fB := ((FrameState.new ⟨2, 24⟩).write
        ⟨[.chr 'a', .chr 'b', .chr 'd'], 0⟩).finish
     (fA.finished_rows[1]?).map FrameRow.hash = (fB.finished_rows[1]?).map FrameRow.hash ∧
     (fA.finished_rows[1]?).map FrameRow.content ≠ (fB.finished_rows[1]?).map FrameRow.content ∧
     diffRowOps fA.finished_rows fB.finished_rows 1 =
       [TermOp.cursorMoveToColumn 0, TermOp.writeText ['\n']]) := by
  decide

/-- C4: counterexample.  Writing a fragment whose classifier output is
`'a'`, an escape sequence, `'b'` produces a single row whose only token has
text "ab": the escape unit is fed (with the style) into the row hash and
does not advance the column, but it is not retained in the row's token
buffer, so nothing re-emits it at commit time. -/
theorem escape_unit_not_retained :
    (let s := (FrameState.new ⟨80, 24⟩).write ⟨[.chr 'a', .esc ['x'], .chr 'b'], 0⟩
     s.finish.finished_rows.map (fun r => r.content.map Styled.content) = [[['a', 'b']]] ∧
     s.current_line_hasher =
       [HashFeed.piece (.chr 'a'), HashFeed.styleOf 0,
        HashFeed.piece (.esc ['x']), HashFeed.styleOf 0,
        HashFeed.piece (.chr 'b'), HashFeed.styleOf 0] ∧
     s.cursor_position.col = 2) := by
  decide

/-- C4 (amended): processing an escape-sequence unit feeds the unit and the
active style into the pending row's running hash and changes nothing else —
in particular it does not advance `cursor.col` and it is not buffered into
the row's tokens, so it is dropped rather than re-emitted at commit time. -/
theorem escape_unit_hashed_only (s : FrameState) (st : StyleSheet) (e : List Char) :
    s.writeUnit st (.esc e) =
      { s with
        current_line_hasher :=
          s.current_line_hasher ++ [HashFeed.piece (.esc e), HashFeed.styleOf st] } :=
  rfl

/-- C5: counterexample.  A newline unit arriving while the pending row is
empty (fresh frame, empty style) commits no row and leaves the cursor at
(0, 0): `finish_line` returns early on an empty pending line, so neither is
a row pushed nor is `cursor.row` incremented. -/
theorem newline_on_empty_pending_is_noop :
    (let s := (FrameState.new ⟨80, 24⟩).write ⟨[.chr '\n'], 0⟩
     s.finished_rows = [] ∧ s.cursor_position = ⟨0, 0⟩) := by
  decide

/-- C6: counterexample.  Fresh frame of width 2, one width-1 character
written (cursor at column 1), then `mark_cursor_position 4`: the source
wraps the marked position at most once, storing (col 3, row 1) — the column
even exceeds the width — whereas the claimed formula demands
(col (1+4) mod 2, row advanced by (1+4)/2) = (1, 2). -/
theorem mark_cursor_multi_wrap_fails :
    (let s := ((FrameState.new ⟨2, 24⟩).write ⟨[.chr 'a'], 0⟩).mark_cursor_position 4
     s.expected_cursor_position = some ⟨3, 1⟩ ∧
     s.expected_cursor_position ≠ some ⟨(1 + 4) % 2, (1 + 4) / 2⟩) := by
  decide

/-- C7: counterexample.  With terminal width 1 (the claim allows any width
at least 1), writing a single width-2 character drives `cursor.col` to 2,
above the terminal width, and no row is committed first: `finish_line`
returns early because the pending row is empty. -/
theorem column_bound_fails_at_width_one :
    (let s := (FrameState.new ⟨1, 24⟩).write ⟨[.chr (Char.ofNat 0x1100)], 0⟩
     charWidth (Char.ofNat 0x1100) = 2 ∧
     s.cursor_position.col = 2 ∧ s.terminal_size.width = 1 ∧ s.finished_rows = []) := by
  decide

/-- C9: counterexample.  `Backend::frame_setup` only calls the render box's
`hide_cursor`, whose `terminal.cursor_hide()` call is commented out in the
source, so no cursor-hide primitive is invoked before drawing. -/
theorem frame_setup_no_cursor_hide : TermOp.cursorHide ∉ frameSetupOps := by
  decide

/-- C9 (amended): `frame_setup` performs no terminal operation at all — the
render box's `hide_cursor` body is a bare `Ok(())` with the cursor-hide call
commented out, so the cursor's visibility is unchanged during redraw. -/
theorem frame_setup_emits_no_ops : frameSetupOps = [] := rfl

theorem sat16_of_le (a b : Nat) (h : a + b ≤ 65535) : sat16 a b = a + b := by
  unfold sat16; omega

namespace FrameState

theorem finish_line_fields (s : FrameState) :
    s.finish_line.terminal_size = s.terminal_size ∧
    s.finish_line.frame_size = s.frame_size ∧
    s.finish_line.expected_cursor_position = s.expected_cursor_position ∧
    s.finish_line.current_line = [] ∧
    s.finish_line.current_styled = ⟨[], s.current_styled.style⟩ := by
  unfold finish_line
  dsimp only
  split_ifs <;> simp_all

/-- If the pending line is empty when `finish_line` runs with an empty
style, it returns early: rows and cursor are untouched, only the line,
styled buffer and hasher are reset. -/
theorem finish_line_empty (s : FrameState)
    (hline : s.current_line = []) (hcont : s.current_styled.content = [])
    (hsty : styleIsEmpty s.current_styled.style = true) :
    s.finish_line =
      { s with
        current_styled := ⟨[], s.current_styled.style⟩
        current_line := []
        current_line_hasher := [] } := by
  unfold finish_line
  dsimp only
  split_ifs <;> first | rfl | (exfalso; simp_all)

/-- If the taken pending content is nonempty under an empty style,
`finish_line` commits the row and resets the cursor to column 0 of the next
row. -/
theorem finish_line_commit (s : FrameState)
    (hcont : s.current_styled.content ≠ [])
    (hsty : styleIsEmpty s.current_styled.style = true) :
    s.finish_line =
      { s with
        current_styled := ⟨[], s.current_styled.style⟩
        current_line := []
        current_line_hasher := []
        finished_rows :=
          s.finished_rows ++ [⟨s.current_line ++ [s.current_styled], s.current_line_hasher⟩]
        cursor_position := ⟨0, sat16 s.cursor_position.row 1⟩ } := by
  unfold finish_line
  dsimp only
  split_ifs <;> first | rfl | (exfalso; simp_all)

/-- Whenever the pending line is nonempty (buffered tokens, in-progress
text, or a non-default style), `finish_line` commits exactly one row and
moves the cursor to column 0 of the next row. -/
theorem finish_line_of_nonempty (s : FrameState)
    (h : ¬(s.current_line = [] ∧ s.current_styled.content = [] ∧
        styleIsEmpty s.current_styled.style = true)) :
    s.finish_line.finished_rows.length = s.finished_rows.length + 1 ∧
    s.finish_line.cursor_position = ⟨0, sat16 s.cursor_position.row 1⟩ := by
  unfold finish_line
  dsimp only
  split_ifs with h1 h2 h2 <;> simp_all

/-- `finish_line` leaves the cursor at column 0 provided an empty pending
line implies the column is already 0. -/
theorem finish_line_col_zero (s : FrameState)
    (h : s.current_line = [] → s.current_styled.content = [] → s.cursor_position.col = 0) :
    s.finish_line.cursor_position.col = 0 := by
  unfold finish_line
  dsimp only
  split_ifs with h1 h2 h2 <;> simp_all [List.isEmpty_iff]

theorem finish_line_rows_le (s : FrameState) :
    s.finished_rows.length ≤ s.finish_line.finished_rows.length := by
  unfold finish_line
  dsimp only
  split_ifs <;> simp

theorem writeUnit_fields (s : FrameState) (st : StyleSheet) (p : AnsiAwareChar) :
    (s.writeUnit st p).terminal_size = s.terminal_size ∧
    (s.writeUnit st p).frame_size = s.frame_size ∧
    (s.writeUnit st p).expected_cursor_position = s.expected_cursor_position := by
  rcases p with c | e
  · unfold writeUnit
    dsimp only
    split_ifs with h1 h2
    · obtain ⟨a, b, c2, _, _⟩ := finish_line_fields
        { s with current_line_hasher := s.current_line_hasher ++
            [HashFeed.piece (.chr c), HashFeed.styleOf st] }
      exact ⟨a, b, c2⟩
    · obtain ⟨a, b, c2, _, _⟩ := finish_line_fields
        { s with current_line_hasher := s.current_line_hasher ++
            [HashFeed.piece (.chr c), HashFeed.styleOf st] }
      exact ⟨a, b, c2⟩
    · exact ⟨rfl, rfl, rfl⟩
  · exact ⟨rfl, rfl, rfl⟩

theorem foldUnits_fields (l : List AnsiAwareChar) (st : StyleSheet) (s : FrameState) :
    ((l.foldl (fun a p => a.writeUnit st p) s).terminal_size = s.terminal_size ∧
     (l.foldl (fun a p => a.writeUnit st p) s).frame_size = s.frame_size ∧
     (l.foldl (fun a p => a.writeUnit st p) s).expected_cursor_position =
       s.expected_cursor_position) := by
  induction l generalizing s with
  | nil => exact ⟨rfl, rfl, rfl⟩
  | cons p l ih =>
    obtain ⟨a, b, c⟩ := ih (s.writeUnit st p)
    obtain ⟨d, e, f⟩ := writeUnit_fields s st p
    exact ⟨by rw [List.foldl_cons, a, d], by rw [List.foldl_cons, b, e],
      by rw [List.foldl_cons, c, f]⟩

theorem write_fields (s : FrameState) (v : StyledFragment) :
    (s.write v).terminal_size = s.terminal_size ∧
    (s.write v).frame_size = s.frame_size ∧
    (s.write v).expected_cursor_position = s.expected_cursor_position := by
  unfold write
  dsimp only
  obtain ⟨a, b, c⟩ := foldUnits_fields v.content v.style
    { s with current_styled := { s.current_styled with style := v.style } }
  split_ifs <;> exact ⟨a, b, c⟩

theorem foldWrite_fields (ws : List StyledFragment) (s : FrameState) :
    ((ws.foldl write s).terminal_size = s.terminal_size ∧
     (ws.foldl write s).frame_size = s.frame_size) := by
  induction ws generalizing s with
  | nil => exact ⟨rfl, rfl⟩
  | cons v ws ih =>
    obtain ⟨a, b⟩ := ih (s.write v)
    obtain ⟨d, e, _⟩ := write_fields s v
    exact ⟨by rw [List.foldl_cons, a, d], by rw [List.foldl_cons, b, e]⟩

/-- `fit_to_terminal` on a frame whose `frame_size` is still the initial
(0, 0) — which, `frame_size` never being assigned anywhere in the source, is
every frame — only updates the stored terminal size. -/
theorem fit_to_terminal_of_zero (s : FrameState) (ns : TerminalSize)
    (h : s.frame_size = ⟨0, 0⟩) :
    s.fit_to_terminal ns = { s with terminal_size := ns } := by
  unfold fit_to_terminal
  rw [if_pos (by rw [h]; exact ⟨Nat.zero_le _, Nat.zero_le _⟩)]

end FrameState

/-- C5 (amended): a newline unit processed while the pending row is nonempty
(buffered tokens, in-progress text, or a non-default active style) commits
the pending row, resets `cursor.col` to 0 and increments `cursor.row`
(saturating); a newline on an entirely empty pending row with the default
style commits nothing and leaves the cursor unchanged. -/
theorem newline_commits_nonempty_pending (s : FrameState)
    (h : ¬(s.current_line = [] ∧ s.current_styled.content = [] ∧
        styleIsEmpty s.current_styled.style = true)) :
    (s.writeUnit s.current_styled.style (.chr '\n')).finished_rows.length =
      s.finished_rows.length + 1 ∧
    (s.writeUnit s.current_styled.style (.chr '\n')).cursor_position =
      ⟨0, sat16 s.cursor_position.row 1⟩ := by
  have hs : s.writeUnit s.current_styled.style (.chr '\n') =
      ({ s with current_line_hasher := s.current_line_hasher ++
          [HashFeed.piece (.chr '\n'), HashFeed.styleOf s.current_styled.style]
        } : FrameState).finish_line := by
    unfold FrameState.writeUnit
    dsimp only
    rw [if_pos rfl]
  rw [hs]
  exact FrameState.finish_line_of_nonempty _ h

/-- C5 (witness): after writing "a", a newline commits the single buffered
row and the cursor moves to the start of row 1. -/
theorem newline_commits_nonempty_pending_witness :
    (((FrameState.new ⟨80, 24⟩).write ⟨[.chr 'a'], 0⟩).writeUnit
        ((FrameState.new ⟨80, 24⟩).write ⟨[.chr 'a'], 0⟩).current_styled.style
        (.chr '\n')).finished_rows.length =
      ((FrameState.new ⟨80, 24⟩).write ⟨[.chr 'a'], 0⟩).finished_rows.length + 1 ∧
    (((FrameState.new ⟨80, 24⟩).write ⟨[.chr 'a'], 0⟩).writeUnit
        ((FrameState.new ⟨80, 24⟩).write ⟨[.chr 'a'], 0⟩).current_styled.style
        (.chr '\n')).cursor_position =
      ⟨0, sat16 ((FrameState.new ⟨80, 24⟩).write ⟨[.chr 'a'], 0⟩).cursor_position.row 1⟩ :=
  newline_commits_nonempty_pending ((FrameState.new ⟨80, 24⟩).write ⟨[.chr 'a'], 0⟩)
    (by decide)

theorem colInv_new (S : TerminalSize) : ColInv (FrameState.new S) :=
  ⟨Nat.zero_le _, fun _ _ => rfl⟩

theorem colInv_finish_line (s : FrameState) (h : ColInv s) : ColInv s.finish_line := by
  have hz := FrameState.finish_line_col_zero s h.2
  exact ⟨by rw [(FrameState.finish_line_fields s).1, hz]; exact Nat.zero_le _,
    fun _ _ => hz⟩

theorem colInv_writeUnit (s : FrameState) (st : StyleSheet) (p : AnsiAwareChar)
    (hW : 2 ≤ s.terminal_size.width) (hW2 : s.terminal_size.width ≤ 65535)
    (h : ColInv s) : ColInv (s.writeUnit st p) := by
  rcases p with c | e
  · unfold FrameState.writeUnit
    dsimp only
    split_ifs with h1 h2
    · exact colInv_finish_line _ h
    · set t := ({ s with current_line_hasher := s.current_line_hasher ++
          [HashFeed.piece (.chr c), HashFeed.styleOf st] } : FrameState).finish_line with ht
      have hz : t.cursor_position.col = 0 := FrameState.finish_line_col_zero _ h.2
      have hterm : t.terminal_size = s.terminal_size := (FrameState.finish_line_fields _).1
      constructor
      · show sat16 t.cursor_position.col (charWidth c) ≤ t.terminal_size.width
        rw [hz, hterm]
        have := charWidth_le_two c
        unfold sat16
        omega
      · intro _ hc
        exact absurd hc (by simp)
    · replace h2 : ¬charWidth c > wsub16 s.terminal_size.width s.cursor_position.col := h2
      rw [wsub16_of_le _ _ h.1 hW2] at h2
      constructor
      · show sat16 s.cursor_position.col (charWidth c) ≤ s.terminal_size.width
        have hcol := h.1
        unfold sat16
        omega
      · intro _ hc
        exact absurd hc (by simp)
  · exact ⟨h.1, h.2⟩

theorem colInv_foldUnits (l : List AnsiAwareChar) (st : StyleSheet) (s : FrameState)
    (hW : 2 ≤ s.terminal_size.width) (hW2 : s.terminal_size.width ≤ 65535)
    (h : ColInv s) : ColInv (l.foldl (fun a p => a.writeUnit st p) s) := by
  induction l generalizing s with
  | nil => exact h
  | cons p l ih =>
    rw [List.foldl_cons]
    have hterm := (FrameState.writeUnit_fields s st p).1
    exact ih (s.writeUnit st p) (by rw [hterm]; exact hW) (by rw [hterm]; exact hW2)
      (colInv_writeUnit s st p hW hW2 h)

theorem colInv_write (s : FrameState) (v : StyledFragment)
    (hW : 2 ≤ s.terminal_size.width) (hW2 : s.terminal_size.width ≤ 65535)
    (h : ColInv s) : ColInv (s.write v) := by
  unfold FrameState.write
  dsimp only
  have hf : ColInv (v.content.foldl (fun a p => a.writeUnit v.style p)
      { s with current_styled := { s.current_styled with style := v.style } }) :=
    colInv_foldUnits v.content v.style _ hW hW2 ⟨h.1, h.2⟩
  split_ifs with hc
  · exact hf
  · exact ⟨hf.1, fun hl _ => absurd hl (by simp)⟩

theorem colInv_foldWrite (ws : List StyledFragment) (s : FrameState)
    (hW : 2 ≤ s.terminal_size.width) (hW2 : s.terminal_size.width ≤ 65535)
    (h : ColInv s) : ColInv (ws.foldl FrameState.write s) := by
  induction ws generalizing s with
  | nil => exact h
  | cons v ws ih =>
    rw [List.foldl_cons]
    have hterm := (FrameState.write_fields s v).1
    exact ih (s.write v) (by rw [hterm]; exact hW) (by rw [hterm]; exact hW2)
      (colInv_write s v hW hW2 h)

/-- C7 (amended): for a terminal width of at least 2 (the classifier only
produces units of display width at most 2), the cursor column never exceeds
the terminal width in any state reachable by `write` calls on a fresh frame;
and whenever a printable unit's width exceeds the remaining space while the
pending row is nonempty, the pending row is committed (wrap) before the unit
is appended.  (At width 1 a width-2 unit breaks the bound, and with an empty
pending row nothing is committed — see the counterexample.) -/
theorem column_bound_invariant (S : TerminalSize) (hW : 2 ≤ S.width)
    (hW2 : S.width ≤ 65535) (ws : List StyledFragment) :
    (ws.foldl FrameState.write (FrameState.new S)).cursor_position.col ≤ S.width ∧
    (∀ (t : FrameState) (st : StyleSheet) (c : Char), c ≠ '\n' →
      charWidth c > wsub16 t.terminal_size.width t.cursor_position.col →
      ¬(t.current_line = [] ∧ t.current_styled.content = [] ∧
          styleIsEmpty t.current_styled.style = true) →
      (t.writeUnit st (.chr c)).finished_rows.length = t.finished_rows.length + 1) := by
  constructor
  · have hinv := colInv_foldWrite ws (FrameState.new S) hW hW2 (colInv_new S)
    have hterm := (FrameState.foldWrite_fields ws (FrameState.new S)).1
    calc (ws.foldl FrameState.write (FrameState.new S)).cursor_position.col
        ≤ (ws.foldl FrameState.write (FrameState.new S)).terminal_size.width := hinv.1
      _ = S.width := by rw [hterm]; rfl
  · intro t st c hnl hwrap hpend
    unfold FrameState.writeUnit
    dsimp only
    rw [if_neg hnl, if_pos hwrap]
    exact (FrameState.finish_line_of_nonempty
      { t with current_line_hasher := t.current_line_hasher ++
          [HashFeed.piece (.chr c), HashFeed.styleOf st] } (by exact hpend)).1

/-- C7 (witness): instantiation at width 80 with the single fragment "a",
and the wrap clause at a concrete nonempty pending state. -/
theorem column_bound_invariant_witness :
    (([⟨[.chr 'a'], 0⟩] : List StyledFragment).foldl FrameState.write
        (FrameState.new ⟨80, 24⟩)).cursor_position.col ≤ 80 :=
  (column_bound_invariant ⟨80, 24⟩ (by decide) (by decide) [⟨[.chr 'a'], 0⟩]).1

/-- A printable unit that fits the remaining width is appended to the
pending text and advances the column by its width. -/
theorem writeUnit_chr_nowrap (s : FrameState) (st : StyleSheet) (c : Char)
    (hnl : c ≠ '\n')
    (hfit : ¬charWidth c > wsub16 s.terminal_size.width s.cursor_position.col) :
    s.writeUnit st (.chr c) =
      { s with
        current_line_hasher := s.current_line_hasher ++
          [HashFeed.piece (.chr c), HashFeed.styleOf st]
        current_styled := { s.current_styled with
          content := s.current_styled.content ++ [c] }
        cursor_position := { s.cursor_position with
          col := sat16 s.cursor_position.col (charWidth c) } } := by
  unfold FrameState.writeUnit
  dsimp only
  rw [if_neg hnl, if_neg (by exact hfit)]

/-- A printable unit that exceeds the remaining width while the pending text
is nonempty (under an empty style) first commits the pending row — whose
hash includes the feed of the unit itself — and then starts the next row
with the unit. -/
theorem writeUnit_chr_wrap_commit (s : FrameState) (st : StyleSheet) (c : Char)
    (hnl : c ≠ '\n')
    (hwrap : charWidth c > wsub16 s.terminal_size.width s.cursor_position.col)
    (hcont : s.current_styled.content ≠ [])
    (hsty : styleIsEmpty s.current_styled.style = true) :
    s.writeUnit st (.chr c) =
      { s with
        current_styled := ⟨[c], s.current_styled.style⟩
        current_line := []
        current_line_hasher := []
        finished_rows := s.finished_rows ++
          [⟨s.current_line ++ [s.current_styled],
            s.current_line_hasher ++ [HashFeed.piece (.chr c), HashFeed.styleOf st]⟩]
        cursor_position := ⟨sat16 0 (charWidth c), sat16 s.cursor_position.row 1⟩ } := by
  unfold FrameState.writeUnit
  dsimp only
  rw [if_neg hnl, if_pos (by exact hwrap)]
  rw [FrameState.finish_line_commit _ (by exact hcont) (by exact hsty)]
  rfl

/-- Closed-form characterization of `repState` for width-1 characters:
after `n ≥ 1` characters the frame has committed `k` full rows of `W`
characters and holds the remaining `m` characters (`n = k * W + m`,
`1 ≤ m ≤ W`) in the pending buffer, with the cursor at column `m` of row
`k` (row saturating at 65535). -/
theorem repState_spec (W H : Nat) (c : Char) (hW : 1 ≤ W) (hW2 : W ≤ 65535)
    (hc : charWidth c = 1) (hnl : c ≠ '\n') :
    ∀ n, 1 ≤ n →
    ∃ k m, n = k * W + m ∧ 1 ≤ m ∧ m ≤ W ∧
      (repState W H n c).cursor_position = ⟨m, min k 65535⟩ ∧
      (repState W H n c).finished_rows.length = k ∧
      (repState W H n c).current_line = [] ∧
      (repState W H n c).current_styled = ⟨List.replicate m c, 0⟩ ∧
      (repState W H n c).terminal_size = ⟨W, H⟩ := by
  intro n
  induction n with
  | zero => omega
  | succ n ih =>
    intro _
    by_cases hn : 1 ≤ n
    · obtain ⟨k, m, hkm, hm1, hmW, hcur, hrows, hline, hsty, hterm⟩ := ih hn
      have hstep : repState W H (n + 1) c = (repState W H n c).writeUnit 0 (.chr c) := by
        unfold repState
        rw [List.replicate_succ', List.foldl_append, List.foldl_cons, List.foldl_nil]
      by_cases hmw : m = W
      · -- the character no longer fits: the pending row is committed first
        have hwrap : charWidth c >
            wsub16 (repState W H n c).terminal_size.width
              (repState W H n c).cursor_position.col := by
          rw [hterm, hcur, hc]
          dsimp only
          rw [hmw, wsub16_of_le W W (le_refl W) hW2]
          omega
        have hcont : (repState W H n c).current_styled.content ≠ [] := by
          rw [hsty]
          show List.replicate m c ≠ []
          intro hx
          have hlen := congrArg List.length hx
          rw [List.length_replicate] at hlen
          simp at hlen
          omega
        have hk1 : (k + 1) * W = k * W + W := by ring
        refine ⟨k + 1, 1, by omega, le_refl 1, hW, ?_⟩
        rw [hstep, writeUnit_chr_wrap_commit _ _ _ hnl hwrap hcont (by rw [hsty]; rfl)]
        refine ⟨?_, ?_, rfl, ?_, ?_⟩
        · show (⟨sat16 0 (charWidth c), sat16 (repState W H n c).cursor_position.row 1⟩ :
            Position) = ⟨1, min (k + 1) 65535⟩
          rw [hc, hcur]
          dsimp only
          unfold sat16
          clear hstep hcont hwrap hsty hline hrows hterm hcur ih
          congr 1 <;> omega
        · show ((repState W H n c).finished_rows ++ [_]).length = k + 1
          rw [List.length_append, hrows]
          rfl
        · rw [hsty]
          rfl
        · show (repState W H n c).terminal_size = ⟨W, H⟩
          exact hterm
      · -- the character still fits on the current row
        have hfit : ¬charWidth c >
            wsub16 (repState W H n c).terminal_size.width
              (repState W H n c).cursor_position.col := by
          rw [hterm, hcur, hc]
          dsimp only
          rw [wsub16_of_le W m (by omega) hW2]
          omega
        refine ⟨k, m + 1, by omega, by omega, by omega, ?_⟩
        rw [hstep, writeUnit_chr_nowrap _ _ _ hnl hfit]
        refine ⟨?_, ?_, ?_, ?_, ?_⟩
        · show ({ (repState W H n c).cursor_position with
              col := sat16 (repState W H n c).cursor_position.col (charWidth c) } :
            Position) = ⟨m + 1, min k 65535⟩
          rw [hc, hcur]
          dsimp only
          unfold sat16
          congr 1
          omega
        · exact hrows
        · exact hline
        · show ({ (repState W H n c).current_styled with
              content := (repState W H n c).current_styled.content ++ [c] } : Styled)
            = ⟨List.replicate (m + 1) c, 0⟩
          rw [hsty]
          dsimp only
          rw [← List.replicate_succ']
        · exact hterm
    · -- base case: the very first character of a fresh frame
      have hn0 : n = 0 := by omega
      subst hn0
      refine ⟨0, 1, by omega, le_refl 1, hW, ?_⟩
      have hone : repState W H 1 c = (FrameState.new ⟨W, H⟩).writeUnit 0 (.chr c) := by
        unfold repState
        rw [show List.replicate 1 (AnsiAwareChar.chr c) = [AnsiAwareChar.chr c] from rfl,
          List.foldl_cons, List.foldl_nil]
      have hfit : ¬charWidth c >
          wsub16 (FrameState.new ⟨W, H⟩).terminal_size.width
            (FrameState.new ⟨W, H⟩).cursor_position.col := by
        show ¬charWidth c > wsub16 W 0
        rw [hc, wsub16_of_le W 0 (Nat.zero_le W) hW2]
        omega
      rw [hone, writeUnit_chr_nowrap _ _ _ hnl hfit]
      refine ⟨?_, rfl, rfl, ?_, rfl⟩
      · show (⟨sat16 0 (charWidth c), 0⟩ : Position) = ⟨1, min 0 65535⟩
        rw [hc]
        unfold sat16
        congr 1
      · show (⟨[] ++ [c], 0⟩ : Styled) = ⟨List.replicate 1 c, 0⟩
        rfl

/-- `write` of a replicated character run is the unit fold followed by the
end-of-write push of the pending text. -/
theorem write_replicate_eq (W H n : Nat) (c : Char) :
    (FrameState.new ⟨W, H⟩).write ⟨List.replicate n (AnsiAwareChar.chr c), 0⟩
      = (if (repState W H n c).current_styled.content.isEmpty then repState W H n c
         else { repState W H n c with
            current_line := (repState W H n c).current_line ++
              [(repState W H n c).current_styled]
            current_styled := Styled.default }) := rfl

theorem mod_div_of_between (x W : Nat) (hx1 : W ≤ x) (hx2 : x < 2 * W) :
    x % W = x - W ∧ x / W = 1 := by
  constructor
  · rw [Nat.mod_eq_sub_mod hx1, Nat.mod_eq_of_lt (by omega)]
  · exact Nat.div_eq_of_lt_le (by omega) (by omega)

/-- C3: writing a single unstyled run of `L ≥ 1` printable width-1
characters (no newlines, no escapes) into a fresh frame of width `W ≥ 1` at
column 0, followed by `finish()`, produces exactly `ceil(L / W)` finished
rows (written `(L + W - 1) / W` in natural division). -/
theorem wrap_row_count (W H L : Nat) (c : Char) (hW : 1 ≤ W) (hW2 : W ≤ 65535)
    (hL : 1 ≤ L) (hc : charWidth c = 1) (hnl : c ≠ '\n') :
    ((FrameState.new ⟨W, H⟩).write
        ⟨List.replicate L (AnsiAwareChar.chr c), 0⟩).finish.finished_rows.length
      = (L + W - 1) / W := by
  obtain ⟨k, m, hkm, hm1, hmW, hcur, hrows, hline, hsty, hterm⟩ :=
    repState_spec W H c hW hW2 hc hnl L hL
  have hne : ¬((repState W H L c).current_styled.content.isEmpty = true) := by
    rw [hsty]
    show (List.replicate m c).isEmpty = true → False
    intro hx
    rw [List.isEmpty_iff] at hx
    have := congrArg List.length hx
    rw [List.length_replicate] at this
    simp at this
    omega
  rw [write_replicate_eq, if_neg hne]
  unfold FrameState.finish
  have hpush : ¬(({ repState W H L c with
      current_line := (repState W H L c).current_line ++ [(repState W H L c).current_styled]
      current_styled := Styled.default } : FrameState).current_line = [] ∧
      ({ repState W H L c with
        current_line := (repState W H L c).current_line ++ [(repState W H L c).current_styled]
        current_styled := Styled.default } : FrameState).current_styled.content = [] ∧
      styleIsEmpty ({ repState W H L c with
        current_line := (repState W H L c).current_line ++ [(repState W H L c).current_styled]
        current_styled := Styled.default } : FrameState).current_styled.style = true) := by
    intro hx
    exact absurd hx.1 (by simp)
  have hfin := FrameState.finish_line_of_nonempty _ hpush
  rw [hfin.1]
  show (repState W H L c).finished_rows.length + 1 = (L + W - 1) / W
  rw [hrows]
  have hmul : (k + 1) * W = k * W + W := by ring
  have h1 : L + W - 1 = (m - 1) + (k + 1) * W := by omega
  rw [h1, Nat.add_mul_div_right _ _ (by omega : 0 < W), Nat.div_eq_of_lt (by omega)]
  omega

/-- C3 (witness): three characters at width 2 produce 2 = ceil(3/2) rows. -/
theorem wrap_row_count_witness :
    ((FrameState.new ⟨2, 24⟩).write
        ⟨List.replicate 3 (AnsiAwareChar.chr 'a'), 0⟩).finish.finished_rows.length
      = (3 + 2 - 1) / 2 :=
  wrap_row_count 2 24 3 'a' (by decide) (by decide) (by decide) (by decide) (by decide)

/-- C6 (amended): on a fresh frame of width `W ≥ 1`, after writing `n`
width-1 characters and calling `mark_cursor_position offset` with
`W ≤ n + offset < 2 * W` (and `n + offset ≤ 65535`, inside the `u16`
range), the stored expected position is column `(n + offset) mod W` on row
`(n + offset) / W`, rows counted from the frame's first row.  The original
claim also asserted this for `n + offset ≥ 2 * W`, where it fails: the
source wraps the marked position at most once. -/
theorem mark_cursor_single_wrap (W H n off : Nat) (hW : 1 ≤ W)
    (h1 : W ≤ n + off) (h2 : n + off < 2 * W) (h3 : n + off ≤ 65535)
    (c : Char) (hc : charWidth c = 1) (hnl : c ≠ '\n') :
    (((FrameState.new ⟨W, H⟩).write
        ⟨List.replicate n (AnsiAwareChar.chr c), 0⟩).mark_cursor_position
          ((off : Nat) : Int)).expected_cursor_position
      = some ⟨(n + off) % W, (n + off) / W⟩ := by
  have hW2 : W ≤ 65535 := le_trans h1 h3
  have hcast : ((((off : Nat) : Int)) % 65536).toNat = off := by omega
  obtain ⟨hmod, hdiv⟩ := mod_div_of_between (n + off) W h1 h2
  by_cases hn : 1 ≤ n
  · obtain ⟨k, m, hkm, hm1, hmW, hcur, hrows, hline, hsty, hterm⟩ :=
      repState_spec W H c hW hW2 hc hnl n hn
    have hk1 : k ≤ 1 := by
      rcases Nat.lt_or_ge k 2 with hk | hk
      · omega
      · exfalso
        have : 2 * W ≤ k * W := Nat.mul_le_mul_right W hk
        omega
    have hne : ¬((repState W H n c).current_styled.content.isEmpty = true) := by
      rw [hsty]
      show (List.replicate m c).isEmpty = true → False
      intro hx
      rw [List.isEmpty_iff] at hx
      have := congrArg List.length hx
      rw [List.length_replicate] at this
      simp at this
      omega
    rw [write_replicate_eq, if_neg hne]
    unfold FrameState.mark_cursor_position
    dsimp only
    rw [hcast, hcur, hterm]
    dsimp only
    rw [sat16_of_le m off (by omega)]
    rw [hmod, hdiv]
    rcases Nat.eq_or_lt_of_le hk1 with hk | hk
    · -- k = 1: a full row already wrapped, the mark stays on the current row
      subst hk
      rw [if_neg (by omega)]
      congr 2 <;> omega
    · -- k = 0: the mark itself wraps once
      have hkk : k = 0 := by omega
      subst hkk
      rw [if_pos (by omega)]
      congr 2 <;> omega
  · -- n = 0: nothing written yet, the mark wraps once from column 0
    have hn0 : n = 0 := by omega
    subst hn0
    rw [write_replicate_eq,
      if_pos (show (repState W H 0 c).current_styled.content.isEmpty = true from rfl)]
    unfold FrameState.mark_cursor_position
    dsimp only
    rw [hcast,
      show (repState W H 0 c).cursor_position = ⟨0, 0⟩ from rfl,
      show (repState W H 0 c).terminal_size = ⟨W, H⟩ from rfl]
    dsimp only
    rw [sat16_of_le 0 off (by omega)]
    rw [if_pos (show 0 + off ≥ W by omega)]
    rw [hmod, hdiv]

theorem finish_fields (s : FrameState) :
    s.finish.terminal_size = s.terminal_size ∧ s.finish.frame_size = s.frame_size :=
  ⟨(FrameState.finish_line_fields s).1, (FrameState.finish_line_fields s).2.1⟩

theorem set_terminal_self (s : FrameState) (ns : TerminalSize)
    (h : s.terminal_size = ns) : ({ s with terminal_size := ns } : FrameState) = s := by
  subst h
  rfl

theorem reach_fields (S : TerminalSize) (ws : List StyledFragment) :
    (ws.foldl FrameState.write (FrameState.new S)).frame_size = ⟨0, 0⟩ ∧
    (ws.foldl FrameState.write (FrameState.new S)).terminal_size = S := by
  obtain ⟨ht, hf⟩ := FrameState.foldWrite_fields ws (FrameState.new S)
  exact ⟨hf, ht⟩

/-- Re-fitting a finished reachable frame to the terminal size it was built
with leaves it unchanged (its `frame_size` is still (0, 0), so only the
stored terminal size would be updated, to the value it already has). -/
theorem fold_finish_fit (S : TerminalSize) (ws : List StyledFragment) :
    ((ws.foldl FrameState.write (FrameState.new S)).finish).fit_to_terminal S
      = (ws.foldl FrameState.write (FrameState.new S)).finish := by
  have hframe : ((ws.foldl FrameState.write (FrameState.new S)).finish).frame_size
      = ⟨0, 0⟩ := by
    rw [(finish_fields _).2, (reach_fields S ws).1]
  have hterm : ((ws.foldl FrameState.write (FrameState.new S)).finish).terminal_size
      = S := by
    rw [(finish_fields _).1, (reach_fields S ws).2]
  rw [FrameState.fit_to_terminal_of_zero _ _ hframe]
  exact set_terminal_self _ _ hterm

/-- When both frames hold the same row at index `i`, the hashes agree and
the loop body emits only the column reset and the line advance. -/
theorem diffRowOps_same (rows : List FrameRow) (i : Nat) (hi : i < rows.length) :
    diffRowOps rows rows i =
      [TermOp.cursorMoveToColumn 0, TermOp.writeText ['\n']] := by
  unfold diffRowOps
  rw [List.getElem?_eq_getElem hi]
  dsimp only
  rw [if_neg (by simp)]
  rfl

/-- When only the previous frame holds a row at index `i`, the loop body
clears the physical line. -/
theorem diffRowOps_clear (rows : List FrameRow) (i : Nat) (hi : i < rows.length) :
    diffRowOps rows [] i =
      [TermOp.cursorMoveToColumn 0, TermOp.clearCurrentLine, TermOp.writeText ['\n']] := by
  unfold diffRowOps
  rw [List.getElem?_eq_getElem hi, List.getElem?_nil]
  rfl

/-- C1: idempotent redraw.  Writing an identical fragment sequence into two
consecutive frames with the terminal reporting the same size for both
commits makes every row hash of the previous frame match the corresponding
row hash of the current frame, so the second commit takes the skip branch on
every row: its trace is exactly the initial cursor-up, one
`cursor_move_to_column 0` plus line-advance `write("\n")` per row, and the
final flush — no `write_styled`, `clear_current_line` or
`clear_until_new_line` is emitted. -/
theorem idempotent_redraw (S : TerminalSize) (ws : List StyledFragment) :
    (let step1 := finishCurrentFrame (FrameState.new S)
        (ws.foldl FrameState.write (FrameState.new S)) S
     let last1 := step1.1.1
     let cur2 := ws.foldl FrameState.write step1.1.2
     let step2 := finishCurrentFrame last1 cur2 S
     (∀ i, i < cur2.finish.finished_rows.length →
        (last1.finished_rows[i]?).map FrameRow.hash
          = (cur2.finish.finished_rows[i]?).map FrameRow.hash) ∧
     step2.2 = TermOp.cursorUp last1.cursor_position.row ::
        (List.replicate last1.finished_rows.length
          [TermOp.cursorMoveToColumn 0, TermOp.writeText ['\n']]).flatten ++
        [TermOp.flush]) := by
  dsimp only
  constructor
  · intro i _
    rfl
  · show (finishCurrentFrame ((ws.foldl FrameState.write (FrameState.new S)).finish)
        (ws.foldl FrameState.write (FrameState.new S)) S).2 = _
    unfold finishCurrentFrame
    dsimp only
    rw [fold_finish_fit S ws, Nat.max_self]
    have hmap : (List.range
          ((ws.foldl FrameState.write (FrameState.new S)).finish).finished_rows.length).map
        (diffRowOps ((ws.foldl FrameState.write (FrameState.new S)).finish).finished_rows
          ((ws.foldl FrameState.write (FrameState.new S)).finish).finished_rows)
        = List.replicate
            ((ws.foldl FrameState.write (FrameState.new S)).finish).finished_rows.length
            [TermOp.cursorMoveToColumn 0, TermOp.writeText ['\n']] := by
      apply List.eq_replicate_iff.mpr
      constructor
      · simp
      · intro b hb
        simp only [List.mem_map, List.mem_range] at hb
        obtain ⟨i, hi, rfl⟩ := hb
        exact diffRowOps_same _ i hi
    rw [hmap]

/-- C8: empty frame.  A frame on which `write` was never called finishes
with zero rows (no blank row), and committing it after a previous frame of
`N` rows emits exactly one `clear_current_line` (inside the per-row
column-reset / clear / line-advance triple) for each of the `N` previously
drawn rows. -/
theorem empty_frame_clears (S : TerminalSize) (ws : List StyledFragment) :
    ((FrameState.new S).finish.finished_rows.length = 0) ∧
    (let last1 := (finishCurrentFrame (FrameState.new S)
        (ws.foldl FrameState.write (FrameState.new S)) S).1.1
     (finishCurrentFrame last1 (FrameState.new S) S).2 =
       TermOp.cursorUp last1.cursor_position.row ::
         (List.replicate last1.finished_rows.length
           [TermOp.cursorMoveToColumn 0, TermOp.clearCurrentLine,
             TermOp.writeText ['\n']]).flatten ++
         [TermOp.flush]) := by
  constructor
  · rfl
  · dsimp only
    show (finishCurrentFrame ((ws.foldl FrameState.write (FrameState.new S)).finish)
        (FrameState.new S) S).2 = _
    unfold finishCurrentFrame
    dsimp only
    rw [fold_finish_fit S ws]
    rw [show (FrameState.new S).finish.finished_rows = ([] : List FrameRow) from rfl]
    rw [show (([] : List FrameRow)).length = 0 from rfl, Nat.max_eq_left (Nat.zero_le _)]
    have hmap : (List.range
          ((ws.foldl FrameState.write (FrameState.new S)).finish).finished_rows.length).map
        (diffRowOps ((ws.foldl FrameState.write (FrameState.new S)).finish).finished_rows [])
        = List.replicate
            ((ws.foldl FrameState.write (FrameState.new S)).finish).finished_rows.length
            [TermOp.cursorMoveToColumn 0, TermOp.clearCurrentLine, TermOp.writeText ['\n']] := by
      apply List.eq_replicate_iff.mpr
      constructor
      · simp
      · intro b hb
        simp only [List.mem_map, List.mem_range] at hb
        obtain ⟨i, hi, rfl⟩ := hb
        exact diffRowOps_clear _ i hi
    rw [hmap]

/-- C6 (witness): width 2, one character written, offset 2: the expected
position is column (1+2) mod 2 = 1 on row (1+2)/2 = 1. -/
theorem mark_cursor_single_wrap_witness :
    (((FrameState.new ⟨2, 24⟩).write
        ⟨List.replicate 1 (AnsiAwareChar.chr 'a'), 0⟩).mark_cursor_position
          ((2 : Nat) : Int)).expected_cursor_position
      = some ⟨(1 + 2) % 2, (1 + 2) / 2⟩ :=
  mark_cursor_single_wrap 2 24 1 2 (by decide) (by decide) (by decide) (by decide)
    'a' (by decide) (by decide)

/-- The move-to-end teardown step attempts exactly one size query and never
touches cursor visibility or flushing, whatever the terminal returns. -/
theorem moveCursorToEndPosition_counts (b : TermBehavior) (current : FrameState) :
    (moveCursorToEndPosition b current).1.count TermOp.getSize = 1 ∧
    (moveCursorToEndPosition b current).1.count TermOp.cursorShow = 0 ∧
    (moveCursorToEndPosition b current).1.count TermOp.flush = 0 := by
  unfold moveCursorToEndPosition
  rcases b.getSizeR with e | sz
  · simp [List.count_cons]
  · rcases hm : b.moveColR with e | u
    · simp [hm, List.count_cons]
    · simp only [hm]
      split_ifs <;> simp [List.count_cons]

/-- C10: whatever results the terminal primitives would return — including
every one of them failing — the `Drop` implementation attempts its three
teardown steps in order and exactly once each: the move to the end position
(opening with its single size query), the cursor-show, and the flush.  Each
`io::Result` is bound to `_unused`, so an error from one step neither stops
the later steps nor escapes `drop`; the emitted operation list is the only
observable outcome. -/
theorem teardown_swallows_errors (b : TermBehavior) (current : FrameState) :
    dropOps b current =
      (moveCursorToEndPosition b current).1 ++ [TermOp.cursorShow, TermOp.flush] ∧
    (dropOps b current).count TermOp.getSize = 1 ∧
    (dropOps b current).count TermOp.cursorShow = 1 ∧
    (dropOps b current).count TermOp.flush = 1 := by
  obtain ⟨h1, h2, h3⟩ := moveCursorToEndPosition_counts b current
  refine ⟨by simp [dropOps, showCursorRun, flushRun], ?_, ?_, ?_⟩ <;>
    simp [dropOps, showCursorRun, flushRun, List.count_append, List.count_cons, h1, h2, h3]
